import Mathlib

/-!
Verification of the aira ingestion-and-retrieval pipeline.

The definitions below are a shallow embedding of the repository code:

* token-limit enforcement (`DocumentService.ensure_token_limit`,
  src/aira/services/document_service.py lines 185-210);
* the document lifecycle operations (`upload_document` endpoint,
  `process_document`, `delete_document`, `check_duplicate_filename`);
* the question-answering orchestrator (`QAService.answer_question`,
  `submit_feedback`).

External collaborators (S3 object storage, the pdfplumber extractor, the
langchain splitter, the OpenAI embedding API, the Qdrant client, the xAI
language model, wall clocks and uuid mints) are modelled as explicit
parameters recording their outcomes; the SQLite tables are modelled as
lists of rows.
-/

namespace Aira

/-- Token codec. The repository delegates tokenization to tiktoken
(an external collaborator); the spec only requires a consistent reversible
codec. We model it as the character-level codec, for which both round
trips hold definitionally. Mirrors DocumentService.tokenize. -/
def tokenize (text : String) : List Char :=
  text.data

/-- Inverse of the codec. Mirrors DocumentService.detokenize. -/
def detokenize (tokens : List Char) : String :=
  String.mk tokens

theorem tokenize_detokenize (tokens : List Char) : tokenize (detokenize tokens) = tokens :=
  rfl

theorem detokenize_tokenize (s : String) : detokenize (tokenize s) = s := by
  cases s
  rfl

/-- One over-limit chunk is sliced into consecutive token windows. Mirrors
the while-loop of DocumentService.ensure_token_limit (document_service.py
lines 198-208): starting at index 0, each round takes the window
tokens[start : min (start + maxTokens) (length tokens)], appends it, moves
start to end - overlap (Python clamps a negative start to 0, which Nat
subtraction does automatically), and breaks once the window end has
reached the end of the token stream. The fuel argument bounds the number
of loop iterations; a none result models the loop not finishing within
the given fuel, in particular the degenerate infinite loop that arises
when overlap is at least maxTokens. -/
def sliceLoop (tokens : List Char) (maxTokens overlap : Nat) : Nat → Nat → Option (List (List Char))
  | _start, 0 => none
  | start, fuel + 1 =>
    if start < tokens.length then
      let endIdx := min (start + maxTokens) tokens.length
      let slice := (tokens.drop start).take (endIdx - start)
      if endIdx = tokens.length then
        some [slice]
      else
        match sliceLoop tokens maxTokens overlap (endIdx - overlap) fuel with
        | some rest => some (slice :: rest)
        | none => none
    else
      some []

/-- Processing of a single chunk inside DocumentService.ensure_token_limit:
a chunk within the token limit is kept as is, an over-limit chunk is
sliced (the code fixes overlap = 50). The fuel (length of the token
stream plus one) is proved sufficient whenever 50 < maxTokens. -/
def splitChunk (chunk : String) (maxTokens : Nat) : Option (List String) :=
  let tokens := tokenize chunk
  if tokens.length ≤ maxTokens then
    some [chunk]
  else
    match sliceLoop tokens maxTokens 50 0 (tokens.length + 1) with
    | some ws => some (ws.map detokenize)
    | none => none

/-- DocumentService.ensure_token_limit: iterates over the chunks, appending
for each one either the chunk itself or its token windows. -/
def ensure_token_limit : List String → Nat → Option (List String)
  | [], _ => some []
  | c :: cs, maxTokens =>
    match splitChunk c maxTokens, ensure_token_limit cs maxTokens with
    | some hd, some tl => some (hd ++ tl)
    | _, _ => none

lemma sliceLoop_succ (tokens : List Char) (maxTokens overlap start fuel : Nat) :
    sliceLoop tokens maxTokens overlap start (fuel + 1) =
      if start < tokens.length then
        if min (start + maxTokens) tokens.length = tokens.length then
          some [(tokens.drop start).take (min (start + maxTokens) tokens.length - start)]
        else
          match sliceLoop tokens maxTokens overlap (min (start + maxTokens) tokens.length - overlap) fuel with
          | some rest =>
            some ((tokens.drop start).take (min (start + maxTokens) tokens.length - start) :: rest)
          | none => none
      else
        some [] := rfl

lemma sliceLoop_not_lt (tokens : List Char) (maxTokens overlap start fuel : Nat)
    (hlt : ¬ start < tokens.length) :
    sliceLoop tokens maxTokens overlap start (fuel + 1) = some [] := by
  rw [sliceLoop_succ, if_neg hlt]

lemma sliceLoop_isSome (tokens : List Char) (maxTokens overlap : Nat)
    (h : overlap < maxTokens) :
    ∀ fuel start, tokens.length ≤ start + fuel →
      ∃ ws, sliceLoop tokens maxTokens overlap start (fuel + 1) = some ws := by
  intro fuel
  induction fuel with
  | zero =>
    intro start hs
    exact ⟨[], sliceLoop_not_lt tokens maxTokens overlap start 0 (by omega)⟩
  | succ f ih =>
    intro start hs
    by_cases hlt : start < tokens.length
    · by_cases hend : min (start + maxTokens) tokens.length = tokens.length
      · exact ⟨[(tokens.drop start).take (min (start + maxTokens) tokens.length - start)],
          by rw [sliceLoop_succ, if_pos hlt, if_pos hend]⟩
      · have hmin : min (start + maxTokens) tokens.length = start + maxTokens := by
          omega
        obtain ⟨ws, hws⟩ := ih (min (start + maxTokens) tokens.length - overlap) (by omega)
        refine ⟨(tokens.drop start).take (min (start + maxTokens) tokens.length - start) :: ws, ?_⟩
        rw [sliceLoop_succ, if_pos hlt, if_neg hend, hws]
    · exact ⟨[], sliceLoop_not_lt tokens maxTokens overlap start (f + 1) hlt⟩

lemma slice_length_le (tokens : List Char) (maxTokens start : Nat) :
    ((tokens.drop start).take (min (start + maxTokens) tokens.length - start)).length ≤ maxTokens := by
  simp only [List.length_take, List.length_drop]
  omega

lemma sliceLoop_window_le (tokens : List Char) (maxTokens overlap : Nat) :
    ∀ fuel start ws, sliceLoop tokens maxTokens overlap start fuel = some ws →
      ∀ w ∈ ws, w.length ≤ maxTokens := by
  intro fuel
  induction fuel with
  | zero =>
    intro start ws h
    exact Option.noConfusion h
  | succ f ih =>
    intro start ws h
    by_cases hlt : start < tokens.length
    · rw [sliceLoop_succ, if_pos hlt] at h
      by_cases hend : min (start + maxTokens) tokens.length = tokens.length
      · rw [if_pos hend] at h
        simp only [Option.some.injEq] at h
        subst h
        intro w hw
        rw [List.mem_singleton] at hw
        subst hw
        exact slice_length_le tokens maxTokens start
      · rw [if_neg hend] at h
        cases hrec : sliceLoop tokens maxTokens overlap (min (start + maxTokens) tokens.length - overlap) f with
        | none => rw [hrec] at h; exact Option.noConfusion h
        | some rest =>
          rw [hrec] at h
          simp only [Option.some.injEq] at h
          subst h
          intro w hw
          rcases List.mem_cons.mp hw with hw | hw
          · subst hw
            exact slice_length_le tokens maxTokens start
          · exact ih _ rest hrec w hw
    · rw [sliceLoop_not_lt tokens maxTokens overlap start f hlt] at h
      simp only [Option.some.injEq] at h
      subst h
      intro w hw
      exact absurd hw (List.not_mem_nil w)

lemma sliceLoop_head (tokens : List Char) (maxTokens overlap fuel start : Nat)
    (ws : List (List Char)) (hlt : start < tokens.length)
    (h : sliceLoop tokens maxTokens overlap start fuel = some ws) :
    ws.head? = some ((tokens.drop start).take (min (start + maxTokens) tokens.length - start)) := by
  cases fuel with
  | zero => exact Option.noConfusion h
  | succ f =>
    rw [sliceLoop_succ, if_pos hlt] at h
    by_cases hend : min (start + maxTokens) tokens.length = tokens.length
    · rw [if_pos hend] at h
      simp only [Option.some.injEq] at h
      subst h
      rfl
    · rw [if_neg hend] at h
      cases hrec : sliceLoop tokens maxTokens overlap (min (start + maxTokens) tokens.length - overlap) f with
      | none => rw [hrec] at h; exact Option.noConfusion h
      | some rest =>
        rw [hrec] at h
        simp only [Option.some.injEq] at h
        subst h
        rfl

lemma sliceLoop_ne_nil (tokens : List Char) (maxTokens overlap fuel start : Nat)
    (ws : List (List Char)) (hlt : start < tokens.length)
    (h : sliceLoop tokens maxTokens overlap start fuel = some ws) :
    ws ≠ [] := by
  intro hnil
  subst hnil
  exact Option.noConfusion (sliceLoop_head tokens maxTokens overlap fuel start [] hlt h)

lemma sliceLoop_chain (tokens : List Char) (maxTokens overlap : Nat) (hov : overlap < maxTokens) :
    ∀ fuel start ws, sliceLoop tokens maxTokens overlap start fuel = some ws →
      List.Chain' (fun a b => a.drop (a.length - overlap) = b.take overlap) ws := by
  intro fuel
  induction fuel with
  | zero =>
    intro start ws h
    exact Option.noConfusion h
  | succ f ih =>
    intro start ws h
    by_cases hlt : start < tokens.length
    · rw [sliceLoop_succ, if_pos hlt] at h
      by_cases hend : min (start + maxTokens) tokens.length = tokens.length
      · rw [if_pos hend] at h
        simp only [Option.some.injEq] at h
        subst h
        exact List.chain'_singleton _
      · rw [if_neg hend] at h
        cases hrec : sliceLoop tokens maxTokens overlap (min (start + maxTokens) tokens.length - overlap) f with
        | none => rw [hrec] at h; exact Option.noConfusion h
        | some rest =>
          rw [hrec] at h
          simp only [Option.some.injEq] at h
          subst h
          refine List.chain'_cons'.mpr ⟨?_, ih _ rest hrec⟩
          intro b hb
          have hlen : start + maxTokens < tokens.length := by omega
          have hstart2 : min (start + maxTokens) tokens.length - overlap < tokens.length := by omega
          have hb2 := sliceLoop_head tokens maxTokens overlap f
            (min (start + maxTokens) tokens.length - overlap) rest hstart2 hrec
          rw [hb2, Option.mem_def, Option.some.injEq] at hb
          subst hb
          have e1 : min (start + maxTokens) tokens.length - start = maxTokens := by omega
          have e2 : min (start + maxTokens) tokens.length - overlap = start + (maxTokens - overlap) := by
            omega
          rw [e1, e2]
          rw [List.length_take, List.length_drop]
          have e3 : min maxTokens (tokens.length - start) - overlap = maxTokens - overlap := by omega
          rw [e3]
          rw [List.drop_take, List.drop_drop]
          have e4 : maxTokens - (maxTokens - overlap) = overlap := by omega
          rw [e4, List.take_take]
          have e5 : min overlap
              (min (start + (maxTokens - overlap) + maxTokens) tokens.length - (start + (maxTokens - overlap))) =
              overlap := by omega
          rw [e5]
    · rw [sliceLoop_not_lt tokens maxTokens overlap start f hlt] at h
      simp only [Option.some.injEq] at h
      subst h
      exact List.chain'_nil

lemma sliceLoop_last_suffix (tokens : List Char) (maxTokens overlap : Nat) :
    ∀ fuel start ws, sliceLoop tokens maxTokens overlap start fuel = some ws →
      start < tokens.length →
      ∃ w, ws.getLast? = some w ∧ w <:+ tokens := by
  intro fuel
  induction fuel with
  | zero =>
    intro start ws h
    exact absurd h (fun h => Option.noConfusion h)
  | succ f ih =>
    intro start ws h hlt
    rw [sliceLoop_succ, if_pos hlt] at h
    by_cases hend : min (start + maxTokens) tokens.length = tokens.length
    · rw [if_pos hend, hend] at h
      simp only [Option.some.injEq] at h
      subst h
      refine ⟨tokens.drop start, ?_, List.drop_suffix start tokens⟩
      have : (tokens.drop start).take (tokens.length - start) = tokens.drop start :=
        List.take_of_length_le (by rw [List.length_drop])
      rw [this]
      rfl
    · rw [if_neg hend] at h
      cases hrec : sliceLoop tokens maxTokens overlap (min (start + maxTokens) tokens.length - overlap) f with
      | none => rw [hrec] at h; exact Option.noConfusion h
      | some rest =>
        rw [hrec] at h
        simp only [Option.some.injEq] at h
        subst h
        have hstart2 : min (start + maxTokens) tokens.length - overlap < tokens.length := by omega
        obtain ⟨w, hw, hsuf⟩ := ih (min (start + maxTokens) tokens.length - overlap) rest hrec hstart2
        refine ⟨w, ?_, hsuf⟩
        cases rest with
        | nil => exact Option.noConfusion hw
        | cons b t => rw [List.getLast?_cons_cons]; exact hw

lemma splitChunk_of_le (c : String) (maxTokens : Nat)
    (h : (tokenize c).length ≤ maxTokens) :
    splitChunk c maxTokens = some [c] := by
  simp only [splitChunk]
  rw [if_pos h]

lemma splitChunk_of_over (c : String) (maxTokens : Nat) (hov : 50 < maxTokens)
    (h : maxTokens < (tokenize c).length) :
    ∃ ws, sliceLoop (tokenize c) maxTokens 50 0 ((tokenize c).length + 1) = some ws ∧
      splitChunk c maxTokens = some (ws.map detokenize) := by
  obtain ⟨ws, hws⟩ := sliceLoop_isSome (tokenize c) maxTokens 50 hov (tokenize c).length 0 (by omega)
  refine ⟨ws, hws, ?_⟩
  simp only [splitChunk]
  rw [if_neg (by omega), hws]

/-- Claim C2: token-limit enforcement emits only fragments whose token count
is at most maxTokens; a fragment at or below the limit is passed through
unsplit; a sliced fragment produces a nonempty sequence of token windows,
each of size at most maxTokens, in which consecutive windows overlap by
exactly the fixed 50 tokens (the last 50 tokens of a window are the first
50 tokens of the next) and the final window is a suffix of the token
stream, i.e. slicing stops once the final window reaches the end.
Stated under the documented precondition overlap < maxTokens (the code
fixes overlap = 50), without which the loop diverges (see claim C3). -/
theorem ensure_token_limit_spec (chunks : List String) (maxTokens : Nat)
    (hov : 50 < maxTokens) :
    ∃ out, ensure_token_limit chunks maxTokens = some out ∧
      (∀ c ∈ out, (tokenize c).length ≤ maxTokens) ∧
      (∀ c ∈ chunks, (tokenize c).length ≤ maxTokens → c ∈ out) ∧
      (∀ c ∈ chunks, maxTokens < (tokenize c).length →
        ∃ ws, sliceLoop (tokenize c) maxTokens 50 0 ((tokenize c).length + 1) = some ws ∧
          ws ≠ [] ∧
          (∀ w ∈ ws, w.length ≤ maxTokens) ∧
          List.Chain' (fun a b => a.drop (a.length - 50) = b.take 50) ws ∧
          (∃ w, ws.getLast? = some w ∧ w <:+ tokenize c)) := by
  induction chunks with
  | nil =>
    exact ⟨[], rfl, by simp, by simp, by simp⟩
  | cons c cs ih =>
    obtain ⟨out, hout, hbound, hpass, hslice⟩ := ih
    by_cases hc : (tokenize c).length ≤ maxTokens
    · refine ⟨c :: out, ?_, ?_, ?_, ?_⟩
      · simp only [ensure_token_limit, splitChunk_of_le c maxTokens hc, hout]
        rfl
      · intro x hx
        rcases List.mem_cons.mp hx with hx | hx
        · subst hx; exact hc
        · exact hbound x hx
      · intro x hx hxle
        rcases List.mem_cons.mp hx with hx | hx
        · subst hx; exact List.mem_cons_self _ _
        · exact List.mem_cons_of_mem c (hpass x hx hxle)
      · intro x hx hxover
        rcases List.mem_cons.mp hx with hx | hx
        · subst hx; omega
        · exact hslice x hx hxover
    · push_neg at hc
      obtain ⟨ws, hws, hsplit⟩ := splitChunk_of_over c maxTokens hov hc
      have hcpos : 0 < (tokenize c).length := by omega
      refine ⟨ws.map detokenize ++ out, ?_, ?_, ?_, ?_⟩
      · simp only [ensure_token_limit, hsplit, hout]
      · intro x hx
        rcases List.mem_append.mp hx with hx | hx
        · obtain ⟨w, hw, hwx⟩ := List.mem_map.mp hx
          subst hwx
          rw [tokenize_detokenize]
          exact sliceLoop_window_le (tokenize c) maxTokens 50 _ 0 ws hws w hw
        · exact hbound x hx
      · intro x hx hxle
        rcases List.mem_cons.mp hx with hx | hx
        · subst hx; omega
        · exact List.mem_append_right _ (hpass x hx hxle)
      · intro x hx hxover
        rcases List.mem_cons.mp hx with hx | hx
        · subst hx
          refine ⟨ws, hws, ?_, ?_, ?_, ?_⟩
          · exact sliceLoop_ne_nil (tokenize x) maxTokens 50 _ 0 ws hcpos hws
          · exact sliceLoop_window_le (tokenize x) maxTokens 50 _ 0 ws hws
          · exact sliceLoop_chain (tokenize x) maxTokens 50 hov _ 0 ws hws
          · exact sliceLoop_last_suffix (tokenize x) maxTokens 50 _ 0 ws hws hcpos
        · exact hslice x hx hxover

/-- Claim C3: for every input chunk list and every maxTokens strictly
greater than the fixed overlap of 50, the token-window slicing loop
terminates (the fuelled loop succeeds within tokens.length + 1
iterations, so the fuel bound is never the limiting factor) and
ensure_token_limit returns a result; overlap < maxTokens is the guard
against the degenerate infinite loop, modelled here as fuel exhaustion. -/
theorem slicing_terminates (chunks : List String) (maxTokens : Nat) (hov : 50 < maxTokens) :
    (∀ c ∈ chunks, ∃ ws, sliceLoop (tokenize c) maxTokens 50 0 ((tokenize c).length + 1) = some ws) ∧
    (∃ out, ensure_token_limit chunks maxTokens = some out) := by
  constructor
  · intro c _
    exact sliceLoop_isSome (tokenize c) maxTokens 50 hov (tokenize c).length 0 (by omega)
  · induction chunks with
    | nil => exact ⟨[], rfl⟩
    | cons c cs ih =>
      obtain ⟨out, hout⟩ := ih
      by_cases hc : (tokenize c).length ≤ maxTokens
      · refine ⟨[c] ++ out, ?_⟩
        simp only [ensure_token_limit, splitChunk_of_le c maxTokens hc, hout]
      · push_neg at hc
        obtain ⟨ws, hws, hsplit⟩ := splitChunk_of_over c maxTokens hov hc
        refine ⟨ws.map detokenize ++ out, ?_⟩
        simp only [ensure_token_limit, hsplit, hout]

/-- A 60-character chunk used to exercise the slicing loop at a 55-token
limit: it is split into two windows of 55 tokens overlapping in 50. -/
def demoChunk : String :=
  "abcdefghijklmnopqrstuvwxyzABCDEFGHIJKLMNOPQRSTUVWXYZ01234567"

theorem ensure_token_limit_spec_witness :
    50 < 55 ∧
    ∃ out, ensure_token_limit [demoChunk] 55 = some out ∧
      (∀ c ∈ out, (tokenize c).length ≤ 55) ∧
      (∀ c ∈ [demoChunk], (tokenize c).length ≤ 55 → c ∈ out) ∧
      (∀ c ∈ [demoChunk], 55 < (tokenize c).length →
        ∃ ws, sliceLoop (tokenize c) 55 50 0 ((tokenize c).length + 1) = some ws ∧
          ws ≠ [] ∧
          (∀ w ∈ ws, w.length ≤ 55) ∧
          List.Chain' (fun a b => a.drop (a.length - 50) = b.take 50) ws ∧
          (∃ w, ws.getLast? = some w ∧ w <:+ tokenize c)) :=
  ⟨by omega, ensure_token_limit_spec [demoChunk] 55 (by omega)⟩

theorem slicing_terminates_witness :
    50 < 51 ∧
    ((∀ c ∈ [demoChunk], ∃ ws, sliceLoop (tokenize c) 51 50 0 ((tokenize c).length + 1) = some ws) ∧
     (∃ out, ensure_token_limit [demoChunk] 51 = some out)) :=
  ⟨by omega, slicing_terminates [demoChunk] 51 (by omega)⟩

/-- Lifecycle status of a document (models/documents.py DocumentStatus). -/
inductive DocumentStatus where
  | uploaded
  | processing
  | processed
  | error
deriving DecidableEq, Repr

/-- A document metadata row (models/documents.py Document, and the SQLite
documents table). Timestamps are modelled as abstract Nat ticks. -/
structure Document where
  id : String
  filename : String
  file_path : String
  status : DocumentStatus
  upload_time : Nat
  processed_time : Option Nat
  file_size : Nat
  content_preview : Option String
deriving DecidableEq, Repr

/-- DocumentService.get_document: SELECT by primary key. The SQLite table
is modelled as a list of rows. -/
def get_document (store : List Document) (documentId : String) : Option Document :=
  store.find? (fun d => d.id == documentId)

/-- DocumentService._save_document: INSERT OR REPLACE keyed on id —
replaces the row with the same id if present, otherwise appends. -/
def save_document (store : List Document) (d : Document) : List Document :=
  if store.any (fun x => x.id == d.id) then
    store.map (fun x => if x.id == d.id then d else x)
  else
    store ++ [d]

lemma get_document_save_self (store : List Document) (d : Document) :
    get_document (save_document store d) d.id = some d := by
  unfold get_document save_document
  by_cases hany : store.any (fun x => x.id == d.id)
  · rw [if_pos hany]
    induction store with
    | nil => simp at hany
    | cons x xs ih =>
      by_cases hx : (x.id == d.id) = true
      · simp only [List.map_cons, if_pos hx, List.find?_cons, beq_self_eq_true]
      · have hxf : (x.id == d.id) = false := by
          rw [← Bool.not_eq_true]
          exact hx
        simp only [List.map_cons]
        rw [if_neg hx]
        simp only [List.find?_cons, hxf]
        exact ih (by simpa [List.any_cons, hxf] using hany)
  · rw [if_neg hany]
    induction store with
    | nil => simp [List.find?_cons]
    | cons x xs ih =>
      have hx : (x.id == d.id) = false := by
        rw [← Bool.not_eq_true]
        intro hx
        exact hany (by simp [List.any_cons, hx])
      simp only [List.cons_append, List.find?_cons, hx]
      exact ih (fun hc => hany (by simp only [List.any_cons, hc, Bool.or_true]))

lemma get_document_save_ne (store : List Document) (d : Document) (j : String)
    (h : d.id ≠ j) :
    get_document (save_document store d) j = get_document store j := by
  have hdj : (d.id == j) = false := by
    simp only [beq_eq_false_iff_ne, ne_eq]
    exact h
  unfold get_document save_document
  by_cases hany : store.any (fun x => x.id == d.id)
  · rw [if_pos hany]
    clear hany
    induction store with
    | nil => rfl
    | cons x xs ih =>
      by_cases hx : (x.id == d.id) = true
      · have hxj : (x.id == j) = false := by
          simp only [beq_iff_eq] at hx
          simp only [beq_eq_false_iff_ne, ne_eq, hx]
          exact h
        simp only [List.map_cons, if_pos hx, List.find?_cons, hdj, hxj]
        exact ih
      · simp only [List.map_cons, if_neg hx, List.find?_cons]
        cases hxj : x.id == j with
        | true => rfl
        | false => exact ih
  · rw [if_neg hany]
    clear hany
    induction store with
    | nil => simp [List.find?_cons, hdj]
    | cons x xs ih =>
      simp only [List.cons_append, List.find?_cons]
      cases hxj : x.id == j with
      | true => rfl
      | false => exact ih

lemma get_document_filter_self (store : List Document) (i : String) :
    get_document (store.filter (fun d => d.id != i)) i = none := by
  unfold get_document
  rw [List.find?_eq_none]
  intro d hd
  have := (List.mem_filter.mp hd).2
  simp only [bne_iff_ne, ne_eq] at this
  simp only [beq_iff_eq]
  exact this

lemma get_document_filter_ne (store : List Document) (i j : String) (h : i ≠ j) :
    get_document (store.filter (fun d => d.id != i)) j = get_document store j := by
  unfold get_document
  induction store with
  | nil => rfl
  | cons x xs ih =>
    by_cases hxi : x.id = i
    · have hxj : (x.id == j) = false := by
        simp only [beq_eq_false_iff_ne, ne_eq, hxi]
        exact h
      rw [List.filter_cons_of_neg (by simp [hxi])]
      simp only [List.find?_cons, hxj]
      exact ih
    · rw [List.filter_cons_of_pos (by simp [hxi])]
      simp only [List.find?_cons]
      cases hxj : x.id == j with
      | true => rfl
      | false => exact ih

lemma get_document_id (store : List Document) (documentId : String) (d : Document)
    (h : get_document store documentId = some d) : d.id = documentId := by
  unfold get_document at h
  have := List.find?_some h
  simpa using this

/-- DocumentService.check_duplicate_filename: reads the full current
document set from the durable store (get_all_documents is a SELECT over
the SQLite documents table, not the in-memory cache) and tests exact
filename equality; the ordering of the scan does not affect the result. -/
def check_duplicate_filename (store : List Document) (filename : String) : Bool :=
  store.any (fun d => d.filename == filename)

/-- Outcome of the upload endpoint (server.py upload_document): HTTP 400
for a missing or non-PDF filename, HTTP 409 for a duplicate filename,
otherwise the created document. -/
inductive UploadResult where
  | ok (d : Document)
  | invalidFileType
  | conflict
deriving DecidableEq, Repr

/-- Python str.lower, modelled character-wise (the Lean core
String.toLower is definitionally opaque to the kernel, so the model maps
Char.toLower over the character list instead). -/
def lowerName (s : String) : String :=
  String.mk (s.data.map Char.toLower)

/-- Python str.endswith, modelled as a suffix test on the character
list. -/
def nameEndsWith (s post : String) : Bool :=
  post.data.isSuffixOf s.data

/-- server.py upload_document combined with
DocumentService.upload_document: validates the filename (missing or not
ending in .pdf after lowering is HTTP 400), checks for a duplicate
against the durable store, stores the bytes in S3 (external; the call
returns the presigned url modelled by s3Url), then persists a row with
status UPLOADED. newId models the freshly minted uuid4, now the wall
clock, size the byte length of the uploaded content. Errors are raised
before any row is written, so the store is returned unchanged. -/
def upload_document_endpoint (filename : String) (size : Nat) (newId s3Url : String)
    (now : Nat) (store : List Document) : UploadResult × List Document :=
  if filename == "" then
    (.invalidFileType, store)
  else if !(nameEndsWith (lowerName filename) (".pdf")) then
    (.invalidFileType, store)
  else if check_duplicate_filename store filename then
    (.conflict, store)
  else
    let d : Document :=
      { id := newId, filename := filename, file_path := s3Url,
        status := .uploaded, upload_time := now, processed_time := none,
        file_size := size, content_preview := none }
    (.ok d, save_document store d)

/-- Collaborator outcomes during document deletion: whether the S3 delete
and the Qdrant delete calls succeed. Both calls sit in try/except blocks
that log and swallow any failure (document_service.py lines 133-147), so
neither outcome influences the result. -/
structure DeleteEnv where
  s3Ok : Bool
  qdrantOk : Bool
deriving DecidableEq, Repr

/-- DocumentService.delete_document: returns false if the id is unknown;
otherwise attempts the S3 deletion and the Qdrant deletion (failures
swallowed), removes the metadata row and returns true. -/
def delete_document (env : DeleteEnv) (store : List Document) (documentId : String) :
    Bool × List Document :=
  match get_document store documentId with
  | none => (false, store)
  | some _doc =>
    let _s3DeleteOutcome := env.s3Ok
    let _qdrantDeleteOutcome := env.qdrantOk
    (true, store.filter (fun d => d.id != documentId))

/-- Collaborator outcomes for one run of process_document: whether the S3
fetch succeeds, the extracted text (none models a pdfplumber failure),
the chunks produced by the external langchain splitter, whether each
embedding batch call succeeds together with the per-fragment vectors,
whether the Qdrant collection check plus upsert succeed, and the wall
clock used for the processed timestamp. -/
structure ProcEnv where
  fetchOk : Bool
  extractResult : Option String
  splitChunks : String → List String
  embedOk : Bool
  embedFn : String → List Rat
  qdrantOk : Bool
  now : Nat

/-- Fuel-driven batching loop of DocumentService.embed_chunks: the chunk
list is consumed 16 fragments per request, a failing batch call fails the
whole embedding operation, and an empty chunk list issues no API call at
all (the Python range loop has no iterations). The fuel is the list
length, which bounds the iteration count since each round consumes at
least one chunk. -/
def embedChunksGo (embedOk : Bool) (embedFn : String → List Rat) :
    Nat → List String → Option (List (List Rat))
  | _, [] => some []
  | 0, _ :: _ => none
  | fuel + 1, c :: cs =>
    if embedOk then
      match embedChunksGo embedOk embedFn fuel ((c :: cs).drop 16) with
      | some rest => some (((c :: cs).take 16).map embedFn ++ rest)
      | none => none
    else
      none

/-- DocumentService.embed_chunks. -/
def embed_chunks (embedOk : Bool) (embedFn : String → List Rat) (chunks : List String) :
    Option (List (List Rat)) :=
  embedChunksGo embedOk embedFn chunks.length chunks

lemma embed_chunks_nil (embedOk : Bool) (embedFn : String → List Rat) :
    embed_chunks embedOk embedFn [] = some [] := rfl

/-- MAX_TOKENS_PER_CHUNK from document_service.py line 33. -/
def MAX_TOKENS_PER_CHUNK : Nat := 2000

lemma ensure_token_limit_isSome (chunks : List String) (maxTokens : Nat)
    (hov : 50 < maxTokens) :
    ∃ out, ensure_token_limit chunks maxTokens = some out := by
  induction chunks with
  | nil => exact ⟨[], rfl⟩
  | cons c cs ih =>
    obtain ⟨out, hout⟩ := ih
    by_cases hc : (tokenize c).length ≤ maxTokens
    · refine ⟨[c] ++ out, ?_⟩
      simp only [ensure_token_limit, splitChunk_of_le c maxTokens hc, hout]
    · push_neg at hc
      obtain ⟨ws, hws, hsplit⟩ := splitChunk_of_over c maxTokens hov hc
      refine ⟨ws.map detokenize ++ out, ?_⟩
      simp only [ensure_token_limit, hsplit, hout]

/-- The chunk list after token-limit enforcement as used inside
process_document. Because MAX_TOKENS_PER_CHUNK = 2000 exceeds the fixed
overlap of 50, the fuelled enforcement always succeeds
(tokenLimited_some below), so the default never fires. -/
def tokenLimited (chunks : List String) : List String :=
  (ensure_token_limit chunks MAX_TOKENS_PER_CHUNK).getD []

lemma tokenLimited_some (chunks : List String) :
    ensure_token_limit chunks MAX_TOKENS_PER_CHUNK = some (tokenLimited chunks) := by
  obtain ⟨out, hout⟩ := ensure_token_limit_isSome chunks MAX_TOKENS_PER_CHUNK
    (by unfold MAX_TOKENS_PER_CHUNK; omega)
  rw [hout]
  unfold tokenLimited
  rw [hout]
  rfl

lemma tokenLimited_nil : tokenLimited [] = [] := rfl

/-- The try block body of DocumentService.process_document (lines
272-313): extraction, structural splitting, token-limit enforcement,
embedding, Qdrant collection check plus upsert, then the success-path
mutations (status PROCESSED, processed time, content preview from the
first chunk, with a continuation marker when more chunks exist). On an
exception the Except.error carries the document object as mutated so far,
matching the except branch, which saves that same object after overriding
status to ERROR. Reading chunks[0] for the preview raises IndexError on
an empty chunk list after status and processed_time were already
assigned, hence that error value carries those mutations. -/
def processTry (env : ProcEnv) (d : Document) : Except Document Document :=
  match env.extractResult with
  | none => .error d
  | some fullText =>
    let chunks := tokenLimited (env.splitChunks fullText)
    match embed_chunks env.embedOk env.embedFn chunks with
    | none => .error d
    | some _embeddings =>
      if env.qdrantOk then
        let d2 : Document := { d with status := .processed, processed_time := some env.now }
        match chunks.head? with
        | none => .error d2
        | some c0 =>
          let preview :=
            c0.take 1000 ++ (if 1 < chunks.length then " ... (more content available)" else "")
          .ok { d2 with content_preview := some preview }
      else
        .error d

/-- DocumentService.process_document: looks the document up (silently
returning when absent), persists status PROCESSING, then fetches the
bytes from S3. The fetch sits outside the try block, so a fetch failure
escapes the function (the Bool component records an escaped exception)
with the PROCESSING row already persisted. All later stages run inside
the try block whose except branch persists status ERROR. -/
def process_document (env : ProcEnv) (store : List Document) (documentId : String) :
    List Document × Bool :=
  match get_document store documentId with
  | none => (store, false)
  | some doc0 =>
    let d1 : Document := { doc0 with status := .processing }
    let store1 := save_document store d1
    if env.fetchOk then
      match processTry env d1 with
      | .ok d2 => (save_document store1 d2, false)
      | .error dFail => (save_document store1 { dFail with status := .error }, false)
    else
      (store1, true)

/-- server.py process_document_with_error_handling: awaits
process_document and catches any escaped exception; the handler fetches
the document and assigns status ERROR to the in-memory copy only — it
never calls _save_document — so the persisted store is exactly what
process_document left behind. -/
def process_document_with_error_handling (env : ProcEnv) (store : List Document)
    (documentId : String) : List Document :=
  (process_document env store documentId).1

lemma processTry_ok_id (env : ProcEnv) (d d2 : Document)
    (h : processTry env d = .ok d2) : d2.id = d.id := by
  unfold processTry at h
  cases hext : env.extractResult with
  | none => rw [hext] at h; exact Except.noConfusion h
  | some t =>
    simp only [hext] at h
    cases hemb : embed_chunks env.embedOk env.embedFn (tokenLimited (env.splitChunks t)) with
    | none => simp only [hemb] at h; exact Except.noConfusion h
    | some embs =>
      simp only [hemb] at h
      by_cases hq : env.qdrantOk
      · rw [if_pos hq] at h
        cases hh : (tokenLimited (env.splitChunks t)).head? with
        | none => simp only [hh] at h; exact Except.noConfusion h
        | some c0 =>
          simp only [hh, Except.ok.injEq] at h
          subst h
          rfl
      · rw [if_neg hq] at h
        exact Except.noConfusion h

lemma processTry_error_id (env : ProcEnv) (d d2 : Document)
    (h : processTry env d = .error d2) : d2.id = d.id := by
  unfold processTry at h
  cases hext : env.extractResult with
  | none =>
    rw [hext] at h
    simp only [Except.error.injEq] at h
    subst h
    rfl
  | some t =>
    simp only [hext] at h
    cases hemb : embed_chunks env.embedOk env.embedFn (tokenLimited (env.splitChunks t)) with
    | none =>
      simp only [hemb, Except.error.injEq] at h
      subst h
      rfl
    | some embs =>
      simp only [hemb] at h
      by_cases hq : env.qdrantOk
      · rw [if_pos hq] at h
        cases hh : (tokenLimited (env.splitChunks t)).head? with
        | none =>
          simp only [hh, Except.error.injEq] at h
          subst h
          rfl
        | some c0 =>
          simp only [hh] at h
          exact Except.noConfusion h
      · rw [if_neg hq] at h
        simp only [Except.error.injEq] at h
        subst h
        rfl

lemma processTry_empty_chunks (env : ProcEnv) (d : Document) (t : String)
    (hext : env.extractResult = some t) (hsplit : env.splitChunks t = []) :
    ∃ e, processTry env d = .error e ∧ e.id = d.id := by
  by_cases hq : env.qdrantOk
  · refine ⟨{ d with status := DocumentStatus.processed, processed_time := some env.now }, ?_, rfl⟩
    simp only [processTry, hext, hsplit, tokenLimited_nil, embed_chunks_nil, hq, if_true,
      List.head?_nil]
  · refine ⟨d, ?_, rfl⟩
    simp only [processTry, hext, hsplit, tokenLimited_nil, embed_chunks_nil]
    rw [if_neg hq]

/-- Sample uploaded document used as a concrete failing input. -/
def sampleDoc : Document :=
  { id := "d1", filename := "a.pdf", file_path := "s3://bucket/a.pdf",
    status := .uploaded, upload_time := 0, processed_time := none,
    file_size := 200, content_preview := none }

/-- Environment in which the S3 fetch raises and every later collaborator
would succeed. -/
def fetchFailEnv : ProcEnv :=
  { fetchOk := false, extractResult := some "text", splitChunks := fun t => [t],
    embedOk := true, embedFn := fun _ => [1], qdrantOk := true, now := 1 }

/-- Claim C1 (failing input): processing document d1 when the S3 storage
fetch raises terminates with the persisted status still PROCESSING, not
ERROR. process_document persists PROCESSING and then calls
S3.stream_file outside its try block, so the exception escapes; the
server wrapper catches it but assigns ERROR only to an in-memory copy it
never saves, so the durable row keeps status PROCESSING. This refutes the
claim that every collaborator failure leaves the document persisted in
status ERROR. -/
theorem process_fetch_failure_persists_processing :
    (get_document (process_document_with_error_handling fetchFailEnv [sampleDoc] ("d1")) ("d1")).map
      Document.status = some DocumentStatus.processing := by
  decide

/-- Claim C9: when extraction succeeds but yields a text on which the
splitter produces no fragments, process_document terminates with
persisted status ERROR, never PROCESSED: enforcement and embedding accept
the empty sequence (the embedding batching loop makes no API call), and
the success path then reads chunks[0] for the content preview, which
raises on an empty sequence and is caught by the except branch that
persists status ERROR. -/
theorem empty_chunks_process_error (env : ProcEnv) (store : List Document)
    (documentId : String) (doc : Document) (t : String)
    (hdoc : get_document store documentId = some doc)
    (hfetch : env.fetchOk = true)
    (hext : env.extractResult = some t)
    (hsplit : env.splitChunks t = []) :
    (get_document (process_document_with_error_handling env store documentId) documentId).map
      Document.status = some DocumentStatus.error := by
  obtain ⟨e, he, heid⟩ :=
    processTry_empty_chunks env { doc with status := DocumentStatus.processing } t hext hsplit
  unfold process_document_with_error_handling process_document
  rw [hdoc]
  simp only [hfetch, if_true, he]
  have hid : ({ e with status := DocumentStatus.error } : Document).id = documentId := by
    show e.id = documentId
    rw [heid]
    exact get_document_id store documentId doc hdoc
  rw [← hid, get_document_save_self]
  rfl

/-- Environment for a fully successful processing run over a one-fragment
split. -/
def okEnv : ProcEnv :=
  { fetchOk := true, extractResult := some "hello world", splitChunks := fun t => [t],
    embedOk := true, embedFn := fun _ => [1], qdrantOk := true, now := 2 }

theorem empty_chunks_process_error_witness :
    get_document [sampleDoc] ("d1") = some sampleDoc ∧
    (get_document
        (process_document_with_error_handling
          { fetchOk := true, extractResult := some "x", splitChunks := fun _ => [],
            embedOk := true, embedFn := fun _ => [1], qdrantOk := true, now := 3 }
          [sampleDoc] ("d1")) ("d1")).map Document.status = some DocumentStatus.error :=
  ⟨by decide,
    empty_chunks_process_error
      { fetchOk := true, extractResult := some "x", splitChunks := fun _ => [],
        embedOk := true, embedFn := fun _ => [1], qdrantOk := true, now := 3 }
      [sampleDoc] ("d1") sampleDoc ("x") (by decide) rfl rfl rfl⟩

/-- Store reached by uploading a.pdf into an empty store. -/
def uploadedStore : List Document :=
  (upload_document_endpoint ("a.pdf") 200 ("d1") ("s3://bucket/a.pdf") 0 []).2

/-- Store after a fully successful processing run of d1 (status becomes
PROCESSED). -/
def processedStore : List Document :=
  process_document_with_error_handling okEnv uploadedStore ("d1")

/-- Store after re-invoking process on the already PROCESSED d1 while the
S3 fetch raises. -/
def reprocessedStore : List Document :=
  process_document_with_error_handling fetchFailEnv processedStore ("d1")

/-- Claim C4 (counterexample): a reachable upload/process/process
sequence moves a PROCESSED document back to PROCESSING under the same
id. process_document has no status guard — it unconditionally persists
PROCESSING for any existing document — so re-invoking it on the
PROCESSED d1 (here with a failing storage fetch) leaves the persisted
status PROCESSING. -/
theorem processed_back_to_processing :
    (get_document processedStore ("d1")).map Document.status = some DocumentStatus.processed ∧
    (get_document reprocessedStore ("d1")).map Document.status = some DocumentStatus.processing := by
  decide

/-- Claim C4 (amended): once a document is PROCESSED or ERROR, upload
under a fresh id and delete never alter its stored row (delete on its own
id removes the row entirely rather than transitioning it), and process on
a different id leaves it untouched; process_document on the same id is
the one exception — it unconditionally re-enters PROCESSING for any
existing document, by design, since re-processing after ERROR is the
documented retry path. -/
theorem terminal_status_stable_except_process (store : List Document) (d : Document)
    (hd : get_document store d.id = some d)
    (hs : d.status = DocumentStatus.processed ∨ d.status = DocumentStatus.error) :
    (∀ filename size newId s3Url now, newId ≠ d.id →
      get_document (upload_document_endpoint filename size newId s3Url now store).2 d.id =
        some d) ∧
    (∀ env documentId, documentId ≠ d.id →
      get_document (delete_document env store documentId).2 d.id = some d) ∧
    (∀ env, get_document (delete_document env store d.id).2 d.id = none) ∧
    (∀ env documentId, documentId ≠ d.id →
      get_document (process_document_with_error_handling env store documentId) d.id = some d) := by
  refine ⟨?_, ?_, ?_, ?_⟩
  · intro filename size newId s3Url now hne
    unfold upload_document_endpoint
    by_cases h1 : (filename == "") = true
    · rw [if_pos h1]
      exact hd
    · rw [if_neg h1]
      by_cases h2 : (!(nameEndsWith (lowerName filename) (".pdf"))) = true
      · rw [if_pos h2]
        exact hd
      · rw [if_neg h2]
        by_cases h3 : check_duplicate_filename store filename = true
        · rw [if_pos h3]
          exact hd
        · rw [if_neg h3]
          show get_document (save_document store _) d.id = some d
          rw [get_document_save_ne store _ d.id hne]
          exact hd
  · intro env documentId hne
    unfold delete_document
    cases hget : get_document store documentId with
    | none => exact hd
    | some doc =>
      show get_document (store.filter (fun x => x.id != documentId)) d.id = some d
      rw [get_document_filter_ne store documentId d.id hne]
      exact hd
  · intro env
    unfold delete_document
    cases hget : get_document store d.id with
    | none => simp [hd] at hget
    | some doc =>
      exact get_document_filter_self store d.id
  · intro env documentId hne
    unfold process_document_with_error_handling process_document
    cases hget : get_document store documentId with
    | none => exact hd
    | some doc0 =>
      have hd1 : ({ doc0 with status := DocumentStatus.processing } : Document).id = documentId :=
        get_document_id store documentId doc0 hget
      have h1 : ({ doc0 with status := DocumentStatus.processing } : Document).id ≠ d.id := by
        rw [hd1]
        exact hne
      dsimp only
      by_cases hf : env.fetchOk
      · rw [if_pos hf]
        cases hpt : processTry env { doc0 with status := DocumentStatus.processing } with
        | ok d2 =>
          have h2 : d2.id ≠ d.id := by
            rw [processTry_ok_id env _ d2 hpt, hd1]
            exact hne
          show get_document (save_document (save_document store _) d2) d.id = some d
          rw [get_document_save_ne _ d2 d.id h2, get_document_save_ne store _ d.id h1]
          exact hd
        | error dFail =>
          have h2 : ({ dFail with status := DocumentStatus.error } : Document).id ≠ d.id := by
            show dFail.id ≠ d.id
            rw [processTry_error_id env _ dFail hpt, hd1]
            exact hne
          show get_document (save_document (save_document store _) _) d.id = some d
          rw [get_document_save_ne _ _ d.id h2, get_document_save_ne store _ d.id h1]
          exact hd
      · rw [if_neg hf]
        show get_document (save_document store _) d.id = some d
        rw [get_document_save_ne store _ d.id h1]
        exact hd

/-- A document already in terminal status PROCESSED, used to instantiate
the amended claim. -/
def procDoc : Document :=
  { id := "d1", filename := "a.pdf", file_path := "s3://bucket/a.pdf",
    status := .processed, upload_time := 0, processed_time := some 2,
    file_size := 200, content_preview := some "hello" }

theorem terminal_status_stable_witness :
    get_document (upload_document_endpoint ("b.pdf") 10 ("d2") ("u") 5 [procDoc]).2
      procDoc.id = some procDoc :=
  (terminal_status_stable_except_process [procDoc] procDoc (by decide)
      (Or.inl (by decide))).1 ("b.pdf") 10 ("d2") ("u") 5 (by decide)

/-- Claim C5: uploading a second document whose filename duplicates a
non-deleted document's filename fails with ConflictError (HTTP 409) and
creates no new metadata row — the store is returned unchanged. The
duplicate check reads the full current document set from the durable
store (check_duplicate_filename scans the SELECT result, not the
in-memory cache). Stated for filenames that pass the PDF validation that
precedes the duplicate check, as any previously uploaded filename did. -/
theorem duplicate_upload_conflict (filename : String) (size : Nat) (newId s3Url : String)
    (now : Nat) (store : List Document)
    (hnempty : filename ≠ "")
    (hpdf : nameEndsWith (lowerName filename) (".pdf") = true)
    (hdup : ∃ dd ∈ store, dd.filename = filename) :
    upload_document_endpoint filename size newId s3Url now store =
      (UploadResult.conflict, store) := by
  have hdupb : check_duplicate_filename store filename = true := by
    unfold check_duplicate_filename
    rw [List.any_eq_true]
    obtain ⟨dd, hmem, hfn⟩ := hdup
    exact ⟨dd, hmem, by simpa using hfn⟩
  unfold upload_document_endpoint
  rw [if_neg (by simpa using hnempty), if_neg (by simp [hpdf]), if_pos hdupb]

theorem duplicate_upload_conflict_witness :
    ("a.pdf" : String) ≠ "" ∧
    nameEndsWith (lowerName ("a.pdf")) (".pdf") = true ∧
    upload_document_endpoint ("a.pdf") 300 ("d9") ("u2") 7 [sampleDoc] =
      (UploadResult.conflict, [sampleDoc]) :=
  ⟨by decide, by decide,
    duplicate_upload_conflict ("a.pdf") 300 ("d9") ("u2") 7 [sampleDoc]
      (by decide) (by decide) ⟨sampleDoc, by decide, by decide⟩⟩

/-- Claim C6: delete_document returns false exactly when no document with
the given id exists; otherwise it removes the metadata row and returns
true regardless of whether the object-storage deletion or the
vector-index deletion raise (both are logged and swallowed), and a
subsequent get_document for that id returns none. -/
theorem delete_document_spec (env : DeleteEnv) (store : List Document) (documentId : String) :
    ((delete_document env store documentId).1 = false ↔
      get_document store documentId = none) ∧
    ((delete_document env store documentId).1 = true →
      get_document (delete_document env store documentId).2 documentId = none) := by
  cases hget : get_document store documentId with
  | none =>
    unfold delete_document
    rw [hget]
    exact ⟨by simp, by intro h; exact absurd h (by simp)⟩
  | some doc =>
    unfold delete_document
    rw [hget]
    refine ⟨by simp, ?_⟩
    intro _
    exact get_document_filter_self store documentId

theorem delete_document_spec_witness :
    (delete_document ⟨false, false⟩ [sampleDoc] ("d1")).1 = true ∧
    get_document (delete_document ⟨false, false⟩ [sampleDoc] ("d1")).2 ("d1") = none :=
  ⟨by decide, (delete_document_spec ⟨false, false⟩ [sampleDoc] ("d1")).2 (by decide)⟩

/-- A scored point returned by Qdrant search (qdrant_service.py: payload
fields point_id, document_id, document_filename, content, plus the
similarity score). Scores are Python floats; the model uses exact
rationals for the arithmetic. -/
structure ScoredPoint where
  pointId : String
  documentId : String
  documentFilename : String
  content : String
  score : Rat
deriving DecidableEq, Repr

/-- One entry of the formatted_sources list built in
QAService.answer_question lines 230-239. -/
structure SourceEntry where
  point_id : String
  document_id : String
  document_name : String
  content : String
  score : Rat
deriving DecidableEq, Repr

/-- models/documents.py QuestionResponse. processing_time is a wall-clock
measurement and is omitted from the model. -/
structure QuestionResponse where
  question : String
  answer : String
  confidence_score : Rat
  sources : List SourceEntry
  session_id : String
deriving DecidableEq, Repr

/-- models/documents.py QAHistory, a row of the qa_history table. -/
structure QAHistory where
  id : String
  question : String
  answer : String
  timestamp : Nat
  document_ids : List String
  confidence_score : Option Rat
  feedback_rating : Option Int
deriving DecidableEq, Repr

/-- The per-point formatting of answer_question lines 230-239. -/
def formatSource (p : ScoredPoint) : SourceEntry :=
  { point_id := p.pointId, document_id := p.documentId,
    document_name := p.documentFilename, content := p.content, score := p.score }

/-- QAService._save_qa_record: INSERT OR REPLACE keyed on id. -/
def save_qa_record (store : List QAHistory) (r : QAHistory) : List QAHistory :=
  if store.any (fun x => x.id == r.id) then
    store.map (fun x => if x.id == r.id then r else x)
  else
    store ++ [r]

/-- The terminal no-relevant-context failure of answer_question (the
ValueError raised at qa_service.py line 212; it is not retried). -/
inductive QAError where
  | noContext
deriving DecidableEq, Repr

/-- Result of one answer_question run: the returned response or the
raised error, the qa_history table afterwards, and whether the
language-model collaborator was invoked. -/
structure AnswerOutcome where
  result : Except QAError QuestionResponse
  qaStore : List QAHistory
  llmCalled : Bool

/-- QAService.answer_question: searches Qdrant (the scored results are
the searchResults input, ordered as the collaborator returned them); on
an empty result it raises the no-context error before any language-model
call and before any history write; otherwise it sends exactly one
language-model request (llmAnswer models the returned completion text),
computes the confidence as the arithmetic mean of the similarity scores,
formats the sources in search order, deduplicates the contributing
document ids (Python builds list(set(...)); the model uses List.dedup)
and persists the QA record under the freshly minted sessionId. -/
def answer_question (question sessionId llmAnswer : String) (now : Nat)
    (searchResults : List ScoredPoint) (qaStore : List QAHistory) : AnswerOutcome :=
  match searchResults with
  | [] => { result := .error .noContext, qaStore := qaStore, llmCalled := false }
  | p :: ps =>
    let sources := p :: ps
    let formatted := sources.map formatSource
    let confidence : Rat := (sources.map ScoredPoint.score).sum / (sources.length : Rat)
    let documentIds := (sources.map ScoredPoint.documentId).dedup
    let record : QAHistory :=
      { id := sessionId, question := question, answer := llmAnswer, timestamp := now,
        document_ids := documentIds, confidence_score := some confidence,
        feedback_rating := none }
    let resp : QuestionResponse :=
      { question := question, answer := llmAnswer, confidence_score := confidence,
        sources := formatted, session_id := sessionId }
    { result := .ok resp,
      qaStore := save_qa_record qaStore record,
      llmCalled := true }

/-- Claim C7: whenever the vector search returns at least one scored
fragment, answer_question returns a response whose sources list is
exactly the search results formatted in search order (hence of the same
length) and whose confidence score is the arithmetic mean of the
similarity scores. -/
theorem answer_question_spec (question sessionId llmAnswer : String) (now : Nat)
    (searchResults : List ScoredPoint) (qaStore : List QAHistory)
    (h : searchResults ≠ []) :
    ∃ resp,
      (answer_question question sessionId llmAnswer now searchResults qaStore).result =
        Except.ok resp ∧
      resp.sources = searchResults.map formatSource ∧
      resp.sources.length = searchResults.length ∧
      resp.confidence_score =
        (searchResults.map ScoredPoint.score).sum / (searchResults.length : Rat) := by
  cases searchResults with
  | nil => exact absurd rfl h
  | cons p ps =>
    refine ⟨_, rfl, rfl, ?_, rfl⟩
    simp [List.length_map]

/-- The three retrieved fragments of the specification scenario, with
scores 0.9, 0.8 and 0.7. -/
def pts3 : List ScoredPoint :=
  [⟨"p1", "docA", "a.pdf", "alpha", 9/10⟩,
   ⟨"p2", "docB", "b.pdf", "beta", 8/10⟩,
   ⟨"p3", "docA", "a.pdf", "gamma", 7/10⟩]

theorem answer_question_spec_witness :
    pts3 ≠ [] ∧
    (∃ resp,
      (answer_question ("What is X?") ("s1") ("ans") 0 pts3 []).result = Except.ok resp ∧
      resp.sources = pts3.map formatSource ∧
      resp.sources.length = pts3.length ∧
      resp.confidence_score = (pts3.map ScoredPoint.score).sum / (pts3.length : Rat)) ∧
    (pts3.map ScoredPoint.score).sum / (pts3.length : Rat) = 4/5 :=
  ⟨by decide, answer_question_spec ("What is X?") ("s1") ("ans") 0 pts3 [] (by decide),
    by norm_num [pts3]⟩

/-- Claim C8: when the vector search returns zero fragments,
answer_question fails with the terminal no-relevant-context error, makes
no language-model call, and leaves the qa_history table unchanged. -/
theorem answer_question_no_context (question sessionId llmAnswer : String) (now : Nat)
    (qaStore : List QAHistory) :
    answer_question question sessionId llmAnswer now [] qaStore =
      { result := Except.error QAError.noContext, qaStore := qaStore, llmCalled := false } :=
  rfl

/-- models/documents.py FeedbackRequest. -/
structure FeedbackRequest where
  session_id : String
  question : String
  answer : String
  rating : Int
  comment : Option String
  is_helpful : Bool
deriving DecidableEq, Repr

/-- A row of the append-only feedback table (qa_service.py lines 60-74;
the autoincrement surrogate key is the list position). -/
structure FeedbackRow where
  session_id : String
  question : String
  answer : String
  rating : Int
  comment : Option String
  is_helpful : Bool
  timestamp : Nat
deriving DecidableEq, Repr

/-- QAService._save_feedback: an unconditional INSERT into the feedback
table. -/
def save_feedback (now : Nat) (fb : FeedbackRequest) (fbStore : List FeedbackRow) :
    List FeedbackRow :=
  let row : FeedbackRow :=
    { session_id := fb.session_id, question := fb.question, answer := fb.answer,
      rating := fb.rating, comment := fb.comment, is_helpful := fb.is_helpful,
      timestamp := now }
  fbStore ++ [row]

/-- QAService.submit_feedback: saves the feedback row, then issues
UPDATE qa_history SET feedback_rating WHERE id = session_id, which
silently matches zero rows when no such session exists; no lookup or
not-found check is performed anywhere. -/
def submit_feedback (now : Nat) (fb : FeedbackRequest) (qaStore : List QAHistory)
    (fbStore : List FeedbackRow) : List QAHistory × List FeedbackRow :=
  let fbStore2 := save_feedback now fb fbStore
  let qaStore2 := qaStore.map (fun r =>
    if r.id == fb.session_id then { r with feedback_rating := some fb.rating } else r)
  (qaStore2, fbStore2)

lemma feedback_update_no_match (fb : FeedbackRequest) :
    ∀ qaStore : List QAHistory, (∀ r ∈ qaStore, r.id ≠ fb.session_id) →
      qaStore.map (fun r =>
        if r.id == fb.session_id then { r with feedback_rating := some fb.rating } else r) =
        qaStore := by
  intro qaStore
  induction qaStore with
  | nil => intro _; rfl
  | cons r rs ih =>
    intro h
    have hrP : ¬ ((r.id == fb.session_id) = true) := by
      simp only [beq_iff_eq]
      exact h r (List.mem_cons_self r rs)
    rw [List.map_cons, if_neg hrP, ih (fun x hx => h x (List.mem_cons_of_mem r hx))]

/-- Claim C10: submit_feedback succeeds for every session id — it
unconditionally appends a new feedback row, and when no QA record with
that session id exists the rating update matches zero rows, leaving
qa_history unchanged; being a total function of the model it raises no
not-found error. -/
theorem submit_feedback_spec (now : Nat) (fb : FeedbackRequest) (qaStore : List QAHistory)
    (fbStore : List FeedbackRow) :
    (submit_feedback now fb qaStore fbStore).2 =
      fbStore ++ [⟨fb.session_id, fb.question, fb.answer, fb.rating, fb.comment,
        fb.is_helpful, now⟩] ∧
    ((∀ r ∈ qaStore, r.id ≠ fb.session_id) →
      (submit_feedback now fb qaStore fbStore).1 = qaStore) := by
  refine ⟨rfl, ?_⟩
  intro h
  exact feedback_update_no_match fb qaStore h

/-- Feedback for a session id that has no QA record. -/
def orphanFeedback : FeedbackRequest :=
  { session_id := "nosuch", question := "q", answer := "a", rating := 4,
    comment := none, is_helpful := true }

theorem submit_feedback_spec_witness :
    (submit_feedback 9 orphanFeedback [] []).2 =
      [⟨orphanFeedback.session_id, orphanFeedback.question, orphanFeedback.answer,
        orphanFeedback.rating, orphanFeedback.comment, orphanFeedback.is_helpful, 9⟩] ∧
    (submit_feedback 9 orphanFeedback [] []).1 = [] :=
  ⟨(submit_feedback_spec 9 orphanFeedback [] []).1,
    (submit_feedback_spec 9 orphanFeedback [] []).2 (by simp)⟩

end Aira
